import Mathlib

/-!
Verification of the agora bytecode virtual machine core (runtime value stack,
dispatch loop, coroutine-style suspend/resume) and of the assembler front end,
against a shallow embedding of the Go sources.

Embedding conventions:
* `runtime` package (`agoraFuncVM.run` and the stack types) is embedded as
  executable Lean functions over explicit state records.
* Go `panic` is modelled as an error outcome (`Option`/`Except`/`StepRes.fail`).
* Machine integers: the Go `int` program counter is `Int`; `uint64` operand
  indices are `Nat`, with the one place where a negative `int` is converted to
  `uint64` (OP_BKME's `got`) modelled with an explicit `2 ^ 64` wrap.
* `Number` is `float64` in Go; the claims under study only ever use small
  integral numbers, so it is modelled as `Int` (float-specific behavior is not
  exercised by any claim).
* Code living outside the provided sources (the `Object` get/set/call-method
  contract, the injected arithmetic/comparison strategies, the scope-chain
  `getVar`/`setVar`, `gocoro` range coroutines, closure construction) is either
  a parameter of the machine (`Env`) or a definition whose doc comment starts
  with `Modelled from the spec:`.
-/

namespace Agora

/-- The runtime value model: tagged union with variants Nil, Bool, Number,
String, Object, Func (spec §3).  `Number` is `float64` in Go, modelled as `Int`
since no claim exercises float behavior.  Objects are modelled as their field
list (key/value pairs, later `Set`s updating earlier pairs); `Func` values are
identified by an opaque id resolved through the `Env` parameter, since the
function-value implementation is outside the provided sources. -/
inductive Val where
  | nil
  | bool (b : Bool)
  | number (n : Int)
  | str (s : String)
  | obj (fields : List (Val × Val))
  | func (fid : Nat)

/-- Modelled from the spec: runtime type names as used by type-mismatch errors
(`NewTypeError(Type(vr), "", "object")`); the `Type` function is outside the
provided sources.  Names follow the spec's value variants (§3, §7a). -/
def Val.typeName : Val → String
  | .nil => "nil"
  | .bool _ => "bool"
  | .number _ => "number"
  | .str _ => "string"
  | .obj _ => "object"
  | .func _ => "func"

/-- Modelled from the spec: key equality for the Object key→value mapping
(Object storage internals are outside the provided sources, §1).  Primitive
keys compare by value; reference values used as keys compare by identity,
which for `func` is the id; two `obj` keys are modelled as distinct references.
No claim uses an object as a key. -/
def valEqKey : Val → Val → Bool
  | .nil, .nil => true
  | .bool a, .bool b => a == b
  | .number a, .number b => a == b
  | .str a, .str b => a == b
  | .func a, .func b => a == b
  | _, _ => false

/-- Modelled from the spec: `Object.Set(k, v)` inserts or overwrites the
key/value pair (§3, §6: set(key, value) contract). -/
def objSet : List (Val × Val) → Val → Val → List (Val × Val)
  | [], k, v => [(k, v)]
  | (k', v') :: t, k, v =>
      if valEqKey k' k then (k, v) :: t else (k', v') :: objSet t k v

/-- Modelled from the spec: `Object.Get(k)` returns the value at the key, Nil
if absent (§4.4 GFLD: "pushes the current value at key (Nil if absent)"). -/
def objGet : List (Val × Val) → Val → Val
  | [], _ => Val.nil
  | (k', v') :: t, k => if valEqKey k' k then v' else objGet t k

/-- Modelled from the spec: `Val.String()` conversion used to turn a constant
table entry into a variable name (the `Val` method set is outside the provided
sources).  Only string-valued constants are exercised by the claims. -/
def valString : Val → String
  | .nil => "nil"
  | .bool b => if b then "true" else "false"
  | .number n => toString n
  | .str s => s
  | .obj _ => "object"
  | .func _ => "func"

/-! ## The operand stack (`valStack`, runtime source lines 14-42) -/

/-- `valStack`: growable, index-addressed value stack.  `st` is the backing
storage (Go slice), `sp` the stack pointer. -/
structure valStack where
  st : List Val
  sp : Nat

/-- `newValStack`: fresh empty stack (the size argument is a capacity hint
only and has no observable effect in this model). -/
def newValStack : valStack := { st := [], sp := 0 }

/-- `valStack.push`: append at `sp` (growing the backing storage when
`sp == len(st)`), then advance `sp`.  In Go a state with `sp > len(st)` would
panic on the slot write; such states are unreachable (the stack-pointer
invariant of spec §3) and the model leaves the storage unchanged there. -/
def valStack.push (vs : valStack) (v : Val) : valStack :=
  if vs.sp = vs.st.length then { st := vs.st ++ [v], sp := vs.sp + 1 }
  else { st := vs.st.set vs.sp v, sp := vs.sp + 1 }

/-- `valStack.pop`: retreat `sp`, return the value there, overwrite the slot
with Nil ("free this reference for gc").  Popping past the start (or reading
beyond the backing storage) is a Go panic, modelled as `none`. -/
def valStack.pop (vs : valStack) : Option (Val × valStack) :=
  if vs.sp = 0 ∨ vs.st.length < vs.sp then none
  else some (vs.st.getD (vs.sp - 1) Val.nil,
             { st := vs.st.set (vs.sp - 1) Val.nil, sp := vs.sp - 1 })

/-- Stack-pointer invariant of spec §3: `sp` never exceeds the backing
storage length. -/
def valStack.wf (vs : valStack) : Prop := vs.sp ≤ vs.st.length

instance (vs : valStack) : Decidable vs.wf := by
  unfold valStack.wf; infer_instance

/-- The logical content of the stack: the `sp` live slots, bottom first. -/
def valStack.toList (vs : valStack) : List Val := vs.st.take vs.sp

/-- Push all values of a list in order (used by CALL/CFLD result pushing). -/
def valStack.pushAll (vs : valStack) (l : List Val) : valStack :=
  l.foldl valStack.push vs

/-! ## The bookmark stack (`bkmStack`, runtime source lines 44-61) -/

/-- `bkmStack`: stack of recorded operand-stack depths. -/
structure bkmStack where
  st : List Nat
  sp : Nat

/-- `bkmStack.push`: same growable-slice discipline as `valStack.push`. -/
def bkmStack.push (bs : bkmStack) (i : Nat) : bkmStack :=
  if bs.sp = bs.st.length then { st := bs.st ++ [i], sp := bs.sp + 1 }
  else { st := bs.st.set bs.sp i, sp := bs.sp + 1 }

/-- `bkmStack.pop`: retreat and read; underflow (or an out-of-storage read)
is a Go panic, modelled as `none`.  Unlike `valStack.pop` the slot is not
cleared, matching the source. -/
def bkmStack.pop (bs : bkmStack) : Option (Nat × bkmStack) :=
  if bs.sp = 0 ∨ bs.st.length < bs.sp then none
  else some (bs.st.getD (bs.sp - 1) 0, { st := bs.st, sp := bs.sp - 1 })

/-! ## Instruction encoding (bytecode package, modelled as a record) -/

/-- The opcodes of `agoraFuncVM.run`'s dispatch switch. -/
inductive Opcode where
  | RET | YLD | PUSH | POP | ADD | SUB | MUL | DIV | MOD | NOT | UNM
  | EQ | NEQ | LT | LTE | GT | GTE | TEST | JMP | NEW | SFLD | GFLD
  | CFLD | CALL | RNGS | RNGP | RNGE | BKMS | BKME | DUMP
deriving DecidableEq

/-- Operand-resolution flags (`bytecode.FLG_*`): constant, variable, nil,
this, sibling function, args, and the two jump-direction flags. -/
inductive Flag where
  | K | V | N | T | F | A | Jf | Jb
deriving DecidableEq

/-- An instruction: opcode, flag and 64-bit unsigned index, modelled as a
record since the bit packing of the `bytecode` package is outside the
provided sources (spec §6 requires only the decoded triple). -/
structure Instr where
  op : Opcode
  flg : Flag
  ix : Nat

/-- A function prototype (`agoraFuncDef`): constant table, local-name table,
code, expected-argument count, and the advisory stack-size hint (capacity
only, no semantic effect in this model). -/
structure Proto where
  kTable : List Val
  lTable : List String
  code : List Instr
  expArgs : Nat
  stackSz : Nat

/-! ## Range coroutines (spec §4.3; `gocoro` and `rangeStack` are outside the
provided sources) -/

/-- Modelled from the spec: one `Resume` of a range coroutine yields values,
reports normal exhaustion (`gocoro.ErrEndOfCoro`), or fails for another
reason (§4.3).  A single yielded non-slice value is already wrapped as a
one-element list, matching the normalization at OP_RNGP. -/
inductive CoroRes where
  | ok (vs : List Val)
  | endOfCoro
  | fail

/-- Modelled from the spec: a range-coroutine handle, as the stream of results
its successive `Resume` calls produce (§4.3: start / pull-next / release). -/
structure Coro where
  steps : List CoroRes

/-- Modelled from the spec: `coro.Resume()` produces the next result and
advances the handle; a drained script reports exhaustion. -/
def Coro.resume (c : Coro) : CoroRes × Coro :=
  (c.steps.headD .endOfCoro, ⟨c.steps.tail⟩)

/-! ## The execution environment (injected collaborators, spec §1/§6) -/

/-- The services the dispatch loop consumes but whose implementations are
outside the provided sources: the injected arithmetic strategy
(`ctx.Arithmetic`), the injected three-way comparer (`ctx.Comparer`),
truthiness (`Val.Bool()`), the scope chain beyond the frame's own locals
(`ctx.getVar`/`ctx.setVar`), function invocation (`Func.Call`), object method
calls (`Object.callMethod`), range-coroutine creation (`rangeStack.push`) and
closure construction (`newAgoraFuncVal`).  Call results are `Option`: `none`
models a panic inside the callee. -/
structure Env where
  add : Val → Val → Val
  sub : Val → Val → Val
  mul : Val → Val → Val
  div : Val → Val → Val
  mod : Val → Val → Val
  unm : Val → Val
  cmp : Val → Val → Int
  truthy : Val → Bool
  globalGet : String → Option Val
  globalSet : String → Bool
  callF : Nat → Val → List Val → Option (List Val)
  callMethod : List (Val × Val) → Val → List Val → Option (List Val)
  mkCoro : List Val → Coro
  mkClosure : Nat → Val

/-! ## The execution frame (`agoraFuncVM`) -/

/-- The mutable state of one execution frame: program counter (a Go `int`,
hence `Int`), the three stacks, the local-variable map (Go map modelled as an
association list with in-place update), the bound `this` (field `thisVal`)
and the materialized `args` value (field `argsVal`).  The range stack is a
list with its top at the head (the `rangeStack` type is outside the provided
sources). -/
structure VMState where
  pc : Int
  stk : valStack
  rng : List Coro
  bkm : bkmStack
  vars : List (String × Val)
  thisVal : Val
  argsVal : Val

/-- Map write with Go map semantics: overwrite the existing entry for the
key, else add one. -/
def mapSet : List (String × Val) → String → Val → List (String × Val)
  | [], k, v => [(k, v)]
  | (k', v') :: t, k, v =>
      if k' = k then (k, v) :: t else (k', v') :: mapSet t k v

/-- The fatal failures (Go panics) the dispatch loop can raise (spec §7). -/
inductive RunErr where
  | unknownVar (nm : String)
  | typeMismatch (actual expected : String)
  | coroFail
  | stackUnderflow
  | badPC
  | badConstIndex
  | noCoro
  | callFail
  | invalidFlag
  | noBookmark
deriving DecidableEq

/-- Result of executing one instruction: continue, return, yield, or panic.
The carried state in `fail` is the frame at the moment the panic unwinds. -/
inductive StepRes where
  | next (s : VMState)
  | ret (v : Val) (s : VMState)
  | yld (v : Val) (s : VMState)
  | fail (e : RunErr) (s : VMState)

/-- `agoraFuncVM.getVal`: resolve an operand by flag (runtime source lines
96-118).  FLG_V consults the frame's locals first and then the enclosing
scope chain (spec §9: innermost-to-outermost), failing fatally when the name
resolves nowhere; FLG_F builds a closure from a sibling prototype (via the
environment, since `newAgoraFuncVal` is outside the provided sources); a jump
flag here is the `invalid flag value` panic. -/
def getVal (env : Env) (proto : Proto) (s : VMState) (flg : Flag) (ix : Nat) :
    Except RunErr Val :=
  match flg with
  | .K =>
      match proto.kTable.get? ix with
      | some v => .ok v
      | none => .error .badConstIndex
  | .V =>
      match proto.kTable.get? ix with
      | none => .error .badConstIndex
      | some kv =>
          let nm := valString kv
          match List.lookup nm s.vars with
          | some v => .ok v
          | none =>
              match env.globalGet nm with
              | some v => .ok v
              | none => .error (.unknownVar nm)
  | .N => .ok Val.nil
  | .T => .ok s.thisVal
  | .F => .ok (env.mkClosure ix)
  | .A => .ok s.argsVal
  | .Jf => .error .invalidFlag
  | .Jb => .error .invalidFlag

/-- Pop `n` arguments in reverse order (the `for j := ix; j > 0; j--`
loops of OP_CFLD/OP_CALL/OP_RNGS): the first value popped lands at the end of
the list, so the returned list is in left-to-right push order. -/
def popArgs : Nat → valStack → Option (List Val × valStack)
  | 0, vs => some ([], vs)
  | n + 1, vs =>
      match vs.pop with
      | none => none
      | some (v, vs1) =>
          match popArgs n vs1 with
          | none => none
          | some (rest, vs2) => some (rest ++ [v], vs2)

/-- OP_NEW's pair loop (`for j := ix; j > 0; j--`): each iteration pops the
key first, then the value, and inserts the pair. -/
def newObjLoop : Nat → List (Val × Val) → valStack →
    Option (List (Val × Val) × valStack)
  | 0, ob, vs => some (ob, vs)
  | n + 1, ob, vs =>
      match vs.pop with
      | none => none
      | some (key, vs1) =>
          match vs1.pop with
          | none => none
          | some (v, vs2) => newObjLoop n (objSet ob key v) vs2

/-- OP_BKME's normalization loop.  `got` is `uint64(f.stk.sp - bkm)`: a Go
`int` difference converted to `uint64`, so a stack pointer below the bookmark
wraps to a huge value and the loop pops until the stack underflows (`none`).
The fuel argument is supplied by `step` with a bound that always suffices
(each iteration moves `sp` by one toward `bkm + ix` or toward underflow). -/
def bkmeGot (bkm sp : Nat) : Nat :=
  if bkm ≤ sp then sp - bkm else 2 ^ 64 - (bkm - sp)

/-- The `for got := ...; got != ix; ...` loop body of OP_BKME. -/
def bkmeLoop : Nat → Nat → Nat → valStack → Option valStack
  | 0, _, _, _ => none
  | fuel + 1, bkm, ix, vs =>
      if bkmeGot bkm vs.sp = ix then some vs
      else if bkmeGot bkm vs.sp < ix then bkmeLoop fuel bkm ix (vs.push Val.nil)
      else
        match vs.pop with
        | none => none
        | some (_, vs1) => bkmeLoop fuel bkm ix vs1

/-- One iteration of the fetch-decode-execute loop of `agoraFuncVM.run`
(runtime source lines 266-480).  The instruction at `pc` is fetched (an
out-of-range `pc` is the Go index panic), the program counter is incremented
before the opcode-specific logic runs, and the opcode is dispatched exactly as
in the Go switch.  OP_SFLD mutates the popped Object in place in Go
(reference semantics); objects are modelled immutably here, so that update is
not observable through other references — no claim depends on OP_SFLD. -/
def step (env : Env) (proto : Proto) (s0 : VMState) : StepRes :=
  if s0.pc < 0 then .fail .badPC s0 else
  match proto.code.get? s0.pc.toNat with
  | none => .fail .badPC s0
  | some i =>
    let flg := i.flg
    let ix := i.ix
    let s := { s0 with pc := s0.pc + 1 }
    match i.op with
    | .RET =>
        match s.stk.pop with
        | none => .fail .stackUnderflow s
        | some (v, stk1) => .ret v { s with stk := stk1 }
    | .YLD =>
        match s.stk.pop with
        | none => .fail .stackUnderflow s
        | some (v, stk1) => .yld v { s with stk := stk1 }
    | .PUSH =>
        match getVal env proto s flg ix with
        | .error e => .fail e s
        | .ok v => .next { s with stk := s.stk.push v }
    | .POP =>
        match proto.kTable.get? ix with
        | none => .fail .badConstIndex s
        | some kv =>
            let nm := valString kv
            match s.stk.pop with
            | none => .fail .stackUnderflow s
            | some (v, stk1) =>
                if (List.lookup nm s.vars).isSome then
                  .next { s with stk := stk1, vars := mapSet s.vars nm v }
                else if env.globalSet nm then
                  .next { s with stk := stk1 }
                else .fail (.unknownVar nm) { s with stk := stk1 }
    | .ADD =>
        match s.stk.pop with
        | none => .fail .stackUnderflow s
        | some (y, stk1) =>
            match stk1.pop with
            | none => .fail .stackUnderflow s
            | some (x, stk2) => .next { s with stk := stk2.push (env.add x y) }
    | .SUB =>
        match s.stk.pop with
        | none => .fail .stackUnderflow s
        | some (y, stk1) =>
            match stk1.pop with
            | none => .fail .stackUnderflow s
            | some (x, stk2) => .next { s with stk := stk2.push (env.sub x y) }
    | .MUL =>
        match s.stk.pop with
        | none => .fail .stackUnderflow s
        | some (y, stk1) =>
            match stk1.pop with
            | none => .fail .stackUnderflow s
            | some (x, stk2) => .next { s with stk := stk2.push (env.mul x y) }
    | .DIV =>
        match s.stk.pop with
        | none => .fail .stackUnderflow s
        | some (y, stk1) =>
            match stk1.pop with
            | none => .fail .stackUnderflow s
            | some (x, stk2) => .next { s with stk := stk2.push (env.div x y) }
    | .MOD =>
        match s.stk.pop with
        | none => .fail .stackUnderflow s
        | some (y, stk1) =>
            match stk1.pop with
            | none => .fail .stackUnderflow s
            | some (x, stk2) => .next { s with stk := stk2.push (env.mod x y) }
    | .NOT =>
        match s.stk.pop with
        | none => .fail .stackUnderflow s
        | some (x, stk1) =>
            .next { s with stk := stk1.push (Val.bool (! env.truthy x)) }
    | .UNM =>
        match s.stk.pop with
        | none => .fail .stackUnderflow s
        | some (x, stk1) => .next { s with stk := stk1.push (env.unm x) }
    | .EQ =>
        match s.stk.pop with
        | none => .fail .stackUnderflow s
        | some (y, stk1) =>
            match stk1.pop with
            | none => .fail .stackUnderflow s
            | some (x, stk2) =>
                .next { s with stk := stk2.push (Val.bool (env.cmp x y = 0)) }
    | .NEQ =>
        match s.stk.pop with
        | none => .fail .stackUnderflow s
        | some (y, stk1) =>
            match stk1.pop with
            | none => .fail .stackUnderflow s
            | some (x, stk2) =>
                .next { s with stk := stk2.push (Val.bool (env.cmp x y ≠ 0)) }
    | .LT =>
        match s.stk.pop with
        | none => .fail .stackUnderflow s
        | some (y, stk1) =>
            match stk1.pop with
            | none => .fail .stackUnderflow s
            | some (x, stk2) =>
                .next { s with stk := stk2.push (Val.bool (env.cmp x y < 0)) }
    | .LTE =>
        match s.stk.pop with
        | none => .fail .stackUnderflow s
        | some (y, stk1) =>
            match stk1.pop with
            | none => .fail .stackUnderflow s
            | some (x, stk2) =>
                .next { s with stk := stk2.push (Val.bool (env.cmp x y ≤ 0)) }
    | .GT =>
        match s.stk.pop with
        | none => .fail .stackUnderflow s
        | some (y, stk1) =>
            match stk1.pop with
            | none => .fail .stackUnderflow s
            | some (x, stk2) =>
                .next { s with stk := stk2.push (Val.bool (0 < env.cmp x y)) }
    | .GTE =>
        match s.stk.pop with
        | none => .fail .stackUnderflow s
        | some (y, stk1) =>
            match stk1.pop with
            | none => .fail .stackUnderflow s
            | some (x, stk2) =>
                .next { s with stk := stk2.push (Val.bool (0 ≤ env.cmp x y)) }
    | .TEST =>
        match s.stk.pop with
        | none => .fail .stackUnderflow s
        | some (x, stk1) =>
            if ! env.truthy x then
              .next { s with pc := s.pc + (ix : Int), stk := stk1 }
            else .next { s with stk := stk1 }
    | .JMP =>
        if flg = .Jf then .next { s with pc := s.pc + (ix : Int) }
        else .next { s with pc := s.pc - ((ix : Int) + 1) }
    | .NEW =>
        match newObjLoop ix [] s.stk with
        | none => .fail .stackUnderflow s
        | some (ob, stk1) => .next { s with stk := stk1.push (Val.obj ob) }
    | .SFLD =>
        match s.stk.pop with
        | none => .fail .stackUnderflow s
        | some (vr, stk1) =>
            match stk1.pop with
            | none => .fail .stackUnderflow s
            | some (_, stk2) =>
                match stk2.pop with
                | none => .fail .stackUnderflow s
                | some (_, stk3) =>
                    match vr with
                    | .obj _ => .next { s with stk := stk3 }
                    | _ =>
                        .fail (.typeMismatch vr.typeName "object")
                          { s with stk := stk3 }
    | .GFLD =>
        match s.stk.pop with
        | none => .fail .stackUnderflow s
        | some (vr, stk1) =>
            match stk1.pop with
            | none => .fail .stackUnderflow s
            | some (k, stk2) =>
                match vr with
                | .obj flds => .next { s with stk := stk2.push (objGet flds k) }
                | _ =>
                    .fail (.typeMismatch vr.typeName "object")
                      { s with stk := stk2 }
    | .CFLD =>
        match s.stk.pop with
        | none => .fail .stackUnderflow s
        | some (vr, stk1) =>
            match stk1.pop with
            | none => .fail .stackUnderflow s
            | some (k, stk2) =>
                match popArgs ix stk2 with
                | none => .fail .stackUnderflow s
                | some (args, stk3) =>
                    match vr with
                    | .obj flds =>
                        match env.callMethod flds k args with
                        | none => .fail .callFail { s with stk := stk3 }
                        | some outs =>
                            .next { s with stk := stk3.pushAll outs }
                    | _ =>
                        .fail (.typeMismatch vr.typeName "object")
                          { s with stk := stk3 }
    | .CALL =>
        match s.stk.pop with
        | none => .fail .stackUnderflow s
        | some (x, stk1) =>
            match x with
            | .func fid =>
                match popArgs ix stk1 with
                | none => .fail .stackUnderflow s
                | some (args, stk2) =>
                    match env.callF fid Val.nil args with
                    | none => .fail .callFail { s with stk := stk2 }
                    | some outs => .next { s with stk := stk2.pushAll outs }
            | _ =>
                .fail (.typeMismatch x.typeName "func") { s with stk := stk1 }
    | .RNGS =>
        match popArgs ix s.stk with
        | none => .fail .stackUnderflow s
        | some (args, stk1) =>
            .next { s with stk := stk1, rng := env.mkCoro args :: s.rng }
    | .RNGP =>
        match s.rng with
        | [] => .fail .noCoro s
        | c :: rest =>
            match c.resume with
            | (.ok vs, c1) =>
                let stk1 := ((List.range ix).foldl
                  (fun acc j => acc.push (vs.getD j Val.nil)) s.stk).push
                  (Val.bool true)
                .next { s with stk := stk1, rng := c1 :: rest }
            | (.endOfCoro, c1) =>
                .next
                  { s with stk := s.stk.push (Val.bool false), rng := c1 :: rest }
            | (.fail, c1) => .fail .coroFail { s with rng := c1 :: rest }
    | .RNGE =>
        match s.rng with
        | [] => .fail .noCoro s
        | _ :: rest => .next { s with rng := rest }
    | .BKMS => .next { s with bkm := s.bkm.push s.stk.sp }
    | .BKME =>
        match s.bkm.pop with
        | none => .fail .noBookmark s
        | some (bkm, bkm1) =>
            match bkmeLoop (s.stk.sp + bkm + ix + 2) bkm ix s.stk with
            | none => .fail .stackUnderflow { s with bkm := bkm1 }
            | some stk1 => .next { s with stk := stk1, bkm := bkm1 }
    | .DUMP => .next s

/-! ## The run loop with its prologue and teardown (`agoraFuncVM.run`,
runtime source lines 226-266, and `createArgsVal`/`createLocals`,
lines 206-222) -/

/-- `createArgsVal`: Nil for zero arguments, otherwise an Object with the
positional arguments at numeric keys 0..N-1 (runtime source lines 206-215). -/
def createArgsVal (args : List Val) : Val :=
  if args.length = 0 then Val.nil
  else Val.obj (args.enum.foldl
    (fun o p => objSet o (Val.number (p.1 : Int)) p.2) [])

/-- `createLocals`: pre-populate every local name with Nil (runtime source
lines 218-222). -/
def createLocals (proto : Proto) (vars : List (String × Val)) :
    List (String × Val) :=
  proto.lTable.foldl (fun m nm => mapSet m nm Val.nil) vars

/-- The fresh-start binding loop (runtime source lines 247-253): for each
`j < expArgs`, bind the name `kTable[j].String()` to `args[j]`, or Nil when
the call supplied fewer arguments.  `kTable[j]` out of range is the Go index
panic, modelled as `none`. -/
def bindLoop (kTable args : List Val) :
    Nat → Nat → List (String × Val) → Option (List (String × Val))
  | _, 0, vars => some vars
  | j, n + 1, vars =>
      match kTable.get? j with
      | none => none
      | some kv =>
          bindLoop kTable args (j + 1) n
            (mapSet vars (valString kv) (args.getD j Val.nil))

/-- Bind the expected arguments of a fresh invocation. -/
def bindArgs (proto : Proto) (args : List Val)
    (vars : List (String × Val)) : Option (List (String × Val)) :=
  bindLoop proto.kTable args 0 proto.expArgs vars

/-- The prologue of `run` (lines 242-263): a frame with `pc = 0` is a fresh
start (create locals, bind expected arguments, materialize `args`); any other
`pc` is a resume, which pushes the single received argument (`args[0]`, or
Nil when resumed with no arguments) onto the saved operand stack. -/
def prologue (proto : Proto) (s : VMState) (args : List Val) :
    Except RunErr VMState :=
  if s.pc = 0 then
    match bindArgs proto args (createLocals proto s.vars) with
    | none => .error .badConstIndex
    | some vars1 =>
        .ok { s with vars := vars1, argsVal := createArgsVal args }
  else .ok { s with stk := s.stk.push (args.headD Val.nil) }

/-- Result of driving the instruction loop until it leaves the frame. -/
inductive Outcome where
  | ret (v : Val) (s : VMState)
  | yld (v : Val) (s : VMState)
  | fail (e : RunErr) (s : VMState)
  | timeout (s : VMState)

/-- The fetch-decode-execute loop (`for { ... }`), driven by fuel; the Go
loop has no exit other than RET, YLD or a panic, so exhausted fuel
(`timeout`) corresponds to a still-running frame. -/
def execLoop (env : Env) (proto : Proto) : Nat → VMState → Outcome
  | 0, s => .timeout s
  | fuel + 1, s =>
      match step env proto s with
      | .next s1 => execLoop env proto fuel s1
      | .ret v s1 => .ret v s1
      | .yld v s1 => .yld v s1
      | .fail e s1 => .fail e s1

/-- What one call of `run` leaves behind: the returned values (`Set1` wraps
the single popped value) or the propagated panic, the suspended state stored
on the function value (`f.val.coroState`), and the range-coroutine handles
still held after the deferred `clearRange` teardown. -/
structure RunResult where
  vals : Except RunErr (List Val)
  coroState : Option VMState
  rng : List Coro

/-- `run`'s exits (lines 229-234 and 274-284).  OP_RET sets
`f.val.coroState = nil` and the deferred `clearRange` releases every range
handle; OP_YLD stores the live frame in `f.val.coroState` and sets
`clearRange = false`, keeping the handles; a panic unwinds through the defer,
releasing the handles but leaving `coroState` at its prior value `cs0`. -/
def finishRun (cs0 : Option VMState) : Outcome → Option RunResult
  | .ret v _ => some ⟨.ok [v], none, []⟩
  | .yld v s => some ⟨.ok [v], some s, s.rng⟩
  | .fail e _ => some ⟨.error e, cs0, []⟩
  | .timeout _ => none

/-- `agoraFuncVM.run`: prologue, instruction loop, teardown.  `cs0` is
`f.val.coroState` on entry (set by the caller when resuming a suspended
invocation; `Func.Call` is outside the provided sources and, per the spec,
clears the suspension only on return). -/
def run (env : Env) (proto : Proto) (s : VMState) (cs0 : Option VMState)
    (fuel : Nat) (args : List Val) : Option RunResult :=
  match prologue proto s args with
  | .error e => some ⟨.error e, cs0, []⟩
  | .ok s1 => finishRun cs0 (execLoop env proto fuel s1)

/-! ## The assembler front end (`compiler/asm.go`)

`Compile` scans the line-oriented text format with a map of section handlers
(`[f]`, `[k]`, `[i]`) sharing one scanner.  The embedding threads the
remaining lines (the scanner state) and the accumulated prototype list (the
code appends to `ctx.Protos`; `ctx` is not declared in this file and the
freshly created `mod` is never used, so the accumulator stands in for it).
The handler-local prototype pointer `p` (`var p *runtime.GoblinFunc`) is
declared but never allocated, which the embedding models as an
`Option AsmFunc` that starts as `none`; every field access through it is the
Go nil-pointer panic. -/

/-- A prototype as the assembler builds it.  Opcode and flag names are kept
as their source text (`runtime.NewOpcode`/`NewFlag` are outside the provided
sources); a float constant keeps its raw text (float parsing is external). -/
inductive AsmConst where
  | int (i : Int)
  | float (raw : String)
  | str (s : String)
  | bool (b : Bool)
  | nil

/-- An assembled instruction line: opcode text, flag text, index. -/
structure AsmInstr where
  op : String
  flg : String
  ix : Int

/-- The prototype fields the `[f]`/`[k]`/`[i]` sections fill in. -/
structure AsmFunc where
  isNative : Bool
  stackSz : Int
  expArgs : Int
  expVars : Int
  name : String
  dbgFile : String
  dbgLineStart : Int
  dbgLineEnd : Int
  kTable : List AsmConst
  code : List AsmInstr

/-- `strings.TrimSpace`, over the character list (byte-level trimming agrees
with character-level trimming on the ASCII inputs of this format). -/
def trimSpace (s : String) : String :=
  ⟨((s.data.dropWhile Char.isWhitespace).reverse.dropWhile
      Char.isWhitespace).reverse⟩

/-- All-decimal-digit parse (`none` when empty or a non-digit appears). -/
def decDigits (cs : List Char) : Option Nat :=
  match cs with
  | [] => none
  | _ =>
      cs.foldl
        (fun acc c =>
          match acc with
          | none => none
          | some n =>
              if c.isDigit then some (n * 10 + (c.toNat - '0'.toNat))
              else none)
        (some 0)

/-- `strconv.Atoi`/`ParseInt` with the error ignored, as the source does:
a failed parse leaves the target at 0. -/
def atoi (s : String) : Int :=
  match s.data with
  | '-' :: t => ((decDigits t).map (fun n => -(n : Int))).getD 0
  | '+' :: t => ((decDigits t).map (fun n => (n : Int))).getD 0
  | t => ((decDigits t).map (fun n => (n : Int))).getD 0

/-- Word accumulator for `strings.Fields`. -/
def fieldsAux : List Char → List Char → List String
  | [], acc => if acc.isEmpty then [] else [⟨acc.reverse⟩]
  | c :: t, acc =>
      if c.isWhitespace then
        if acc.isEmpty then fieldsAux t []
        else ⟨acc.reverse⟩ :: fieldsAux t []
      else fieldsAux t (c :: acc)

/-- `strings.Fields`: split on whitespace runs. -/
def fieldsOf (s : String) : List String := fieldsAux s.data []

/-- `line[1:]` (the inputs are ASCII, so byte slicing is character
slicing). -/
def strTail (s : String) : String := ⟨s.data.drop 1⟩

/-- The Go panic message for a field access through the never-allocated
prototype pointer. -/
def nilDeref : String := "nil pointer dereference"

/-- Fuel exhaustion marker for the mutually recursive handlers (unreachable
for any fuel larger than the line count). -/
def outOfFuel : String := "out of fuel"

/-- A field write `p.X = v` through the handler-local pointer: a nil pointer
panics, otherwise the update applies. -/
def pWrite (p : Option AsmFunc) (k : AsmFunc → AsmFunc) :
    Except String AsmFunc :=
  match p with
  | none => .error nilDeref
  | some q => .ok (k q)

mutual

/-- The `[f]` handler: reset the local prototype pointer (to nil) and run the
header state machine. -/
def handlerF (fuel : Nat) (lines : List String)
    (protos : List (Option AsmFunc)) :
    Except String (List String × List (Option AsmFunc)) :=
  match fuel with
  | 0 => .error outOfFuel
  | fuel + 1 => handlerFLoop fuel none 0 lines protos

/-- The scan loop of the `[f]` handler: `i` counts header lines (0 stack
size / native marker, 1 expected args, 2 expected vars, 3 name, 4-6 debug
info); any further line appends `p` to the prototype list and dispatches on
the raw line text (`m[s.Text()]`, untrimmed — a missing entry is a nil map
function call, a Go panic); an exhausted scanner runs the native-prototype
epilogue, which reads `p.IsNative`. -/
def handlerFLoop (fuel : Nat) (p : Option AsmFunc) (i : Nat)
    (lines : List String) (protos : List (Option AsmFunc)) :
    Except String (List String × List (Option AsmFunc)) :=
  match fuel with
  | 0 => .error outOfFuel
  | fuel + 1 =>
    match lines with
    | [] =>
        match p with
        | none => .error nilDeref
        | some q =>
            if q.isNative then .ok ([], protos ++ [some q])
            else .ok ([], protos)
    | line :: rest =>
        if i = 0 then
          if line = "true" then
            match pWrite p (fun q => { q with isNative := true }) with
            | .error e => .error e
            | .ok q => handlerFLoop fuel (some q) 3 rest protos
          else
            match pWrite p (fun q => { q with stackSz := atoi line }) with
            | .error e => .error e
            | .ok q => handlerFLoop fuel (some q) 1 rest protos
        else if i = 1 then
          match pWrite p (fun q => { q with expArgs := atoi line }) with
          | .error e => .error e
          | .ok q => handlerFLoop fuel (some q) 2 rest protos
        else if i = 2 then
          match pWrite p (fun q => { q with expVars := atoi line }) with
          | .error e => .error e
          | .ok q => handlerFLoop fuel (some q) 3 rest protos
        else if i = 3 then
          match pWrite p (fun q => { q with name := line }) with
          | .error e => .error e
          | .ok q =>
              if q.isNative then handlerFLoop fuel (some q) 1001 rest protos
              else handlerFLoop fuel (some q) 4 rest protos
        else if i = 4 then
          match pWrite p (fun q => { q with dbgFile := line }) with
          | .error e => .error e
          | .ok q => handlerFLoop fuel (some q) 5 rest protos
        else if i = 5 then
          match pWrite p (fun q => { q with dbgLineStart := atoi line }) with
          | .error e => .error e
          | .ok q => handlerFLoop fuel (some q) 6 rest protos
        else if i = 6 then
          match pWrite p (fun q => { q with dbgLineEnd := atoi line }) with
          | .error e => .error e
          | .ok q => handlerFLoop fuel (some q) 7 rest protos
        else
          let protos1 := protos ++ [p]
          if line = "[f]" then
            match handlerF fuel rest protos1 with
            | .error e => .error e
            | .ok (rem, protos2) => handlerFLoop fuel p (i + 1) rem protos2
          else if line = "[k]" then
            match handlerK fuel p rest protos1 with
            | .error e => .error e
            | .ok (rem, protos2) => handlerFLoop fuel p (i + 1) rem protos2
          else if line = "[i]" then
            match handlerI fuel p rest protos1 with
            | .error e => .error e
            | .ok (rem, protos2) => handlerFLoop fuel p (i + 1) rem protos2
          else .error "call of nil map entry"

/-- The `[k]` handler: one constant per line, tagged by its first byte
(`i`, `f`, `s`, `b`, `n`); a trimmed line matching a section header
dispatches to it and returns; an exhausted scanner is the
"missing instructions section [i]" panic. -/
def handlerK (fuel : Nat) (p : Option AsmFunc) (lines : List String)
    (protos : List (Option AsmFunc)) :
    Except String (List String × List (Option AsmFunc)) :=
  match fuel with
  | 0 => .error outOfFuel
  | fuel + 1 =>
    match lines with
    | [] => .error "missing instructions section [i]"
    | line :: rest =>
        let t := trimSpace line
        if t = "[f]" then handlerF fuel rest protos
        else if t = "[k]" then handlerK fuel p rest protos
        else if t = "[i]" then handlerI fuel p rest protos
        else
          match line.data with
          | [] => .error "index out of range"
          | c :: cs =>
              if c = 'i' then
                match pWrite p (fun q =>
                    { q with kTable := q.kTable ++ [.int (atoi (strTail line))] }) with
                | .error e => .error e
                | .ok q => handlerK fuel (some q) rest protos
              else if c = 'f' then
                match pWrite p (fun q =>
                    { q with kTable := q.kTable ++ [.float (strTail line)] }) with
                | .error e => .error e
                | .ok q => handlerK fuel (some q) rest protos
              else if c = 's' then
                match pWrite p (fun q =>
                    { q with kTable := q.kTable ++ [.str (strTail line)] }) with
                | .error e => .error e
                | .ok q => handlerK fuel (some q) rest protos
              else if c = 'b' then
                match cs with
                | [] => .error "index out of range"
                | c1 :: _ =>
                    match pWrite p (fun q =>
                        { q with kTable := q.kTable ++ [.bool (c1 = '1')] }) with
                    | .error e => .error e
                    | .ok q => handlerK fuel (some q) rest protos
              else if c = 'n' then
                match pWrite p (fun q =>
                    { q with kTable := q.kTable ++ [AsmConst.nil] }) with
                | .error e => .error e
                | .ok q => handlerK fuel (some q) rest protos
              else .error "invalid constant value type"

/-- The `[i]` handler: one instruction per trimmed line, `opcode [flag ix]`;
a two-field line indexes past the fields (Go panic); a section header
dispatches and returns; scanner exhaustion returns normally. -/
def handlerI (fuel : Nat) (p : Option AsmFunc) (lines : List String)
    (protos : List (Option AsmFunc)) :
    Except String (List String × List (Option AsmFunc)) :=
  match fuel with
  | 0 => .error outOfFuel
  | fuel + 1 =>
    match lines with
    | [] => .ok ([], protos)
    | line :: rest =>
        let t := trimSpace line
        if t = "[f]" then handlerF fuel rest protos
        else if t = "[k]" then handlerK fuel p rest protos
        else if t = "[i]" then handlerI fuel p rest protos
        else
          match fieldsOf t with
          | [] => .error "index out of range"
          | opTxt :: restFields =>
              match restFields with
              | [] =>
                  match pWrite p (fun q =>
                      { q with code := q.code ++ [⟨opTxt, "", 0⟩] }) with
                  | .error e => .error e
                  | .ok q => handlerI fuel (some q) rest protos
              | [_] => .error "index out of range"
              | flgTxt :: ixTxt :: _ =>
                  match pWrite p (fun q =>
                      { q with code := q.code ++ [⟨opTxt, flgTxt, atoi ixTxt⟩] }) with
                  | .error e => .error e
                  | .ok q => handlerI fuel (some q) rest protos

end

/-- The main scan loop of `Compile`: a trimmed line naming a section handler
invokes it with a nil prototype pointer; other lines are skipped.  An
exhausted scanner returns the accumulated prototype list. -/
def compileLoop (fuel : Nat) (lines : List String)
    (protos : List (Option AsmFunc)) :
    Except String (List (Option AsmFunc)) :=
  match fuel with
  | 0 => .error outOfFuel
  | fuel + 1 =>
    match lines with
    | [] => .ok protos
    | line :: rest =>
        let t := trimSpace line
        if t = "[f]" then
          match handlerF fuel rest protos with
          | .error e => .error e
          | .ok (rem, protos1) => compileLoop fuel rem protos1
        else if t = "[k]" then
          match handlerK fuel none rest protos with
          | .error e => .error e
          | .ok (rem, protos1) => compileLoop fuel rem protos1
        else if t = "[i]" then
          match handlerI fuel none rest protos with
          | .error e => .error e
          | .ok (rem, protos1) => compileLoop fuel rem protos1
        else compileLoop fuel rest protos

/-- `Compile`, over its input split into scanner lines. -/
def compileAsm (fuel : Nat) (lines : List String) :
    Except String (List (Option AsmFunc)) :=
  compileLoop fuel lines []

/-- A concrete environment used to instantiate hypotheses at concrete inputs:
all injected strategies are trivial, and a function call echoes its argument
list as its results. -/
def env0 : Env where
  add := fun _ _ => Val.nil
  sub := fun _ _ => Val.nil
  mul := fun _ _ => Val.nil
  div := fun _ _ => Val.nil
  mod := fun _ _ => Val.nil
  unm := fun _ => Val.nil
  cmp := fun _ _ => 0
  truthy := fun _ => false
  globalGet := fun _ => none
  globalSet := fun _ => false
  callF := fun _ _ args => some args
  callMethod := fun _ _ _ => none
  mkCoro := fun _ => ⟨[]⟩
  mkClosure := fun _ => Val.nil

/-! ## Lemmas about the operand stack -/

theorem take_set_of_le {α : Type} :
    ∀ (l : List α) (n m : Nat) (a : α), m ≤ n →
      (l.set n a).take m = l.take m := by
  intro l
  induction l with
  | nil => intro n m a _; simp
  | cons h t ih =>
      intro n m a hmn
      cases m with
      | zero => simp
      | succ m =>
          cases n with
          | zero => omega
          | succ n =>
              simp only [List.set, List.take]
              rw [ih n m a (Nat.succ_le_succ_iff.mp hmn)]

theorem valStack.push_sp (vs : valStack) (v : Val) :
    (vs.push v).sp = vs.sp + 1 := by
  unfold valStack.push
  split <;> rfl

theorem valStack.push_wf (vs : valStack) (v : Val) (h : vs.wf) :
    (vs.push v).wf := by
  unfold valStack.push valStack.wf at *
  split
  next heq => simp [heq]
  next hne => simpa using Nat.lt_of_le_of_ne h hne

theorem valStack.push_toList (vs : valStack) (v : Val) (h : vs.wf) :
    (vs.push v).toList = vs.toList ++ [v] := by
  unfold valStack.push valStack.toList
  split
  next heq =>
      simp only [heq]
      rw [List.take_append 1]
      simp [List.take_length]
  next hne =>
      have hlt : vs.sp < vs.st.length := Nat.lt_of_le_of_ne h hne
      rw [List.set_eq_take_cons_drop v hlt]
      have hlen : (vs.st.take vs.sp).length = vs.sp := by
        simp [Nat.le_of_lt hlt]
      calc (vs.st.take vs.sp ++ v :: vs.st.drop (vs.sp + 1)).take (vs.sp + 1)
          = (vs.st.take vs.sp ++ v :: vs.st.drop (vs.sp + 1)).take
              ((vs.st.take vs.sp).length + 1) := by rw [hlen]
        _ = vs.st.take vs.sp ++ (v :: vs.st.drop (vs.sp + 1)).take 1 := by
              rw [List.take_append 1]
        _ = vs.st.take vs.sp ++ [v] := by simp

theorem valStack.pop_eq (vs : valStack) (h1 : vs.sp ≠ 0)
    (h2 : vs.sp ≤ vs.st.length) :
    vs.pop = some (vs.st.getD (vs.sp - 1) Val.nil,
      { st := vs.st.set (vs.sp - 1) Val.nil, sp := vs.sp - 1 }) := by
  unfold valStack.pop
  rw [if_neg]
  push_neg
  exact ⟨h1, by omega⟩

theorem valStack.pop_wf (vs : valStack) (v : Val) (vs1 : valStack)
    (h : vs.pop = some (v, vs1)) : vs1.wf := by
  unfold valStack.pop at h
  split at h
  next hc => exact absurd h (by simp)
  next hc =>
      push_neg at hc
      injection h with h'
      injection h' with hv hs
      subst hs
      unfold valStack.wf
      simp only [List.length_set]
      omega

theorem valStack.pop_toList (vs : valStack) (v : Val) (vs1 : valStack)
    (h : vs.pop = some (v, vs1)) :
    vs1.toList = vs.toList.take (vs.sp - 1) ∧ vs1.sp = vs.sp - 1 := by
  unfold valStack.pop at h
  split at h
  next hc => exact absurd h (by simp)
  next hc =>
      push_neg at hc
      injection h with h'
      injection h' with hv hs
      subst hs
      constructor
      · unfold valStack.toList
        simp only
        rw [take_set_of_le vs.st (vs.sp - 1) (vs.sp - 1) Val.nil (Nat.le_refl _)]
        rw [List.take_take]
        congr 1
        omega
      · rfl

theorem valStack.pushAll_toList (l : List Val) :
    ∀ (vs : valStack), vs.wf →
      (vs.pushAll l).toList = vs.toList ++ l ∧ (vs.pushAll l).wf := by
  induction l with
  | nil => intro vs h; exact ⟨by simp [valStack.pushAll], h⟩
  | cons v t ih =>
      intro vs h
      have hw := vs.push_wf v h
      have ht := vs.push_toList v h
      have := ih (vs.push v) hw
      unfold valStack.pushAll at this ⊢
      simp only [List.foldl_cons]
      exact ⟨by rw [this.1, ht]; simp, this.2⟩

/-! ## Claim C8 -/

/-- Claim C8: for every operand stack with at least one value, `pop()`
retreats the stack pointer by one, returns the value previously stored at
that slot, and overwrites that slot with Nil, so the backing storage never
retains a stale reference to a popped value. -/
theorem c8_pop_clears_slot (vs : valStack) (h1 : 1 ≤ vs.sp)
    (h2 : vs.sp ≤ vs.st.length) :
    vs.pop = some (vs.st.getD (vs.sp - 1) Val.nil,
      { st := vs.st.set (vs.sp - 1) Val.nil, sp := vs.sp - 1 }) ∧
    (vs.st.set (vs.sp - 1) Val.nil).getD (vs.sp - 1) Val.nil = Val.nil := by
  refine ⟨vs.pop_eq (by omega) h2, ?_⟩
  rw [List.getD_eq_getElem?_getD, List.getElem?_set, if_pos rfl,
    if_pos (show vs.sp - 1 < vs.st.length by omega)]
  rfl

theorem c8_pop_clears_slot_witness :
    valStack.pop ⟨[Val.number 5, Val.number 6], 2⟩ =
      some (Val.number 6, ⟨[Val.number 5, Val.nil], 1⟩) :=
  (c8_pop_clears_slot ⟨[Val.number 5, Val.number 6], 2⟩ (by decide)
    (by decide)).1

/-! ## Claim C3 -/

/-- Correctness of the OP_BKME normalization loop on a stack whose pointer is
at or above the bookmark depth: it terminates (well within the fuel `step`
supplies), leaves exactly `b + ix` values, and the surviving values are the
original bottom `b + ix` values, padded with Nil when the stack was
shallower. -/
theorem bkmeLoop_spec :
    ∀ (fuel b ix : Nat) (vs : valStack), b ≤ vs.sp → vs.wf →
      (b + ix - vs.sp) + (vs.sp - (b + ix)) < fuel →
      ∃ vs1, bkmeLoop fuel b ix vs = some vs1 ∧ vs1.sp = b + ix ∧ vs1.wf ∧
        vs1.toList = vs.toList.take (b + ix) ++
          List.replicate (b + ix - vs.sp) Val.nil := by
  intro fuel
  induction fuel with
  | zero => intro b ix vs _ _ hf; omega
  | succ fuel ih =>
      intro b ix vs hb hwf hf
      have hgot : bkmeGot b vs.sp = vs.sp - b := if_pos hb
      have hlen : vs.toList.length = vs.sp := by
        unfold valStack.toList
        simp [Nat.min_eq_left hwf]
      unfold bkmeLoop
      rw [hgot]
      by_cases h1 : vs.sp - b = ix
      · rw [if_pos h1]
        have hsp : vs.sp = b + ix := by omega
        refine ⟨vs, rfl, hsp, hwf, ?_⟩
        rw [hsp]
        simp only [Nat.sub_self, List.replicate_zero, List.append_nil]
        exact (List.take_of_length_le (by omega)).symm
      · rw [if_neg h1]
        by_cases h2 : vs.sp - b < ix
        · rw [if_pos h2]
          have hlt : vs.sp < b + ix := by omega
          have hw1 := vs.push_wf Val.nil hwf
          have ht1 := vs.push_toList Val.nil hwf
          have hs1 := vs.push_sp Val.nil
          obtain ⟨vs1, heq, hsp1, hwf1, htl1⟩ :=
            ih b ix (vs.push Val.nil) (by omega) hw1 (by omega)
          refine ⟨vs1, heq, hsp1, hwf1, ?_⟩
          rw [htl1, ht1, hs1]
          rw [List.take_append_eq_append_take]
          rw [List.take_of_length_le (by omega)]
          have h3 : b + ix - vs.toList.length = (b + ix - vs.sp - 1) + 1 := by
            omega
          rw [h3]
          have h4 : List.take ((b + ix - vs.sp - 1) + 1) [Val.nil] = [Val.nil] := by
            simp
          rw [h4, List.append_assoc]
          have h5 : b + ix - vs.sp = (b + ix - (vs.sp + 1)) + 1 := by omega
          rw [h5, List.replicate_succ]
          rfl
        · rw [if_neg h2]
          have hgt : b + ix < vs.sp := by omega
          have hpop := vs.pop_eq (by omega) hwf
          rw [hpop]
          set vs1 : valStack :=
            { st := vs.st.set (vs.sp - 1) Val.nil, sp := vs.sp - 1 } with hvs1
          have hw1 : vs1.wf := vs.pop_wf _ vs1 hpop
          have htl1 := vs.pop_toList _ vs1 hpop
          obtain ⟨vs2, heq, hsp2, hwf2, htl2⟩ :=
            ih b ix vs1 (by simp [hvs1]; omega) hw1 (by simp [hvs1]; omega)
          refine ⟨vs2, heq, hsp2, hwf2, ?_⟩
          rw [htl2, htl1.1, htl1.2, List.take_take]
          have h6 : (b + ix) ⊓ (vs.sp - 1) = b + ix := by
            rw [Nat.min_eq_left]; omega
          have h7 : b + ix - (vs.sp - 1) = b + ix - vs.sp := by omega
          rw [h6, h7]

/-- Claim C3: for every bookmark depth `b` recorded by BKMS and every target
count `ix ≥ 0`, executing BKME with any current operand-stack depth `≥ b`
leaves the operand stack at exactly `b + ix` values, pushing Nil while the
depth is below `b + ix` and popping while it is above (the result keeps the
original bottom `b + ix` values and pads with Nil when the stack was
shallower). -/
theorem c3_bkme_normalizes (env : Env) (proto : Proto) (s : VMState)
    (flg : Flag) (ix b : Nat) (bkm1 : bkmStack)
    (hpc : 0 ≤ s.pc)
    (hfetch : proto.code.get? s.pc.toNat = some ⟨.BKME, flg, ix⟩)
    (hbkm : s.bkm.pop = some (b, bkm1))
    (hb : b ≤ s.stk.sp) (hwf : s.stk.wf) :
    ∃ stk1, bkmeLoop (s.stk.sp + b + ix + 2) b ix s.stk = some stk1 ∧
      step env proto s = .next { s with pc := s.pc + 1, stk := stk1, bkm := bkm1 } ∧
      stk1.sp = b + ix ∧
      stk1.toList = s.stk.toList.take (b + ix) ++
        List.replicate (b + ix - s.stk.sp) Val.nil := by
  obtain ⟨stk1, heq, hsp, hwf1, htl⟩ :=
    bkmeLoop_spec (s.stk.sp + b + ix + 2) b ix s.stk hb hwf (by omega)
  refine ⟨stk1, heq, ?_, hsp, htl⟩
  have hpc' : ¬ s.pc < 0 := by omega
  simp only [step, hpc', if_false, hfetch, hbkm, heq]

def proto3w : Proto := ⟨[], [], [⟨.BKME, .N, 3⟩], 0, 0⟩

def s3w : VMState :=
  ⟨0, ⟨[Val.number 1], 1⟩, [], ⟨[1], 1⟩, [], Val.nil, Val.nil⟩

theorem c3_bkme_normalizes_witness :
    step env0 proto3w s3w =
      .next ⟨1, ⟨[Val.number 1, Val.nil, Val.nil, Val.nil], 4⟩, [],
        ⟨[1], 0⟩, [], Val.nil, Val.nil⟩ ∧
    (⟨[Val.number 1, Val.nil, Val.nil, Val.nil], 4⟩ : valStack).sp = 1 + 3 := by
  obtain ⟨stk1, h1, h2, h3, _⟩ :=
    c3_bkme_normalizes env0 proto3w s3w .N 3 1 ⟨[1], 0⟩ (by decide) rfl rfl
      (by decide) (by decide)
  have h0 : bkmeLoop (s3w.stk.sp + 1 + 3 + 2) 1 3 s3w.stk =
      some ⟨[Val.number 1, Val.nil, Val.nil, Val.nil], 4⟩ := rfl
  rw [h0] at h1
  injection h1 with h1'
  rw [← h1'] at h2
  exact ⟨h2, rfl⟩

/-! ## Claim C4 -/

/-- Claim C4: whenever RNGP executes and resuming the most-recently-pushed
range-coroutine reports normal exhaustion, the instruction pushes exactly one
value — the boolean continuation flag `false` — and no data values, for every
requested count `ix`; any resume failure other than normal exhaustion
propagates as a fatal error. -/
theorem c4_rngp_exhausted (env : Env) (proto : Proto) (s : VMState)
    (flg : Flag) (ix : Nat) (c c1 : Coro) (rest : List Coro)
    (hpc : 0 ≤ s.pc)
    (hfetch : proto.code.get? s.pc.toNat = some ⟨.RNGP, flg, ix⟩)
    (hrng : s.rng = c :: rest) :
    (c.resume = (.endOfCoro, c1) →
      step env proto s = .next
        { s with pc := s.pc + 1, stk := s.stk.push (Val.bool false),
                 rng := c1 :: rest } ∧
      (s.stk.wf →
        (s.stk.push (Val.bool false)).toList =
          s.stk.toList ++ [Val.bool false])) ∧
    (c.resume = (.fail, c1) →
      step env proto s =
        .fail .coroFail { s with pc := s.pc + 1, rng := c1 :: rest }) := by
  have hpc' : ¬ s.pc < 0 := by omega
  constructor
  · intro hres
    constructor
    · simp only [step, hpc', if_false, hfetch, hrng, hres]
    · intro hwf
      exact s.stk.push_toList (Val.bool false) hwf
  · intro hres
    simp only [step, hpc', if_false, hfetch, hrng, hres]

def proto4w : Proto := ⟨[], [], [⟨.RNGP, .N, 2⟩], 0, 0⟩

def s4w : VMState :=
  ⟨0, ⟨[], 0⟩, [⟨[CoroRes.endOfCoro]⟩], ⟨[], 0⟩, [], Val.nil, Val.nil⟩

def s4f : VMState :=
  ⟨0, ⟨[], 0⟩, [⟨[CoroRes.fail]⟩], ⟨[], 0⟩, [], Val.nil, Val.nil⟩

theorem c4_rngp_exhausted_witness :
    step env0 proto4w s4w =
      .next ⟨1, ⟨[Val.bool false], 1⟩, [⟨[]⟩], ⟨[], 0⟩, [], Val.nil, Val.nil⟩ ∧
    step env0 proto4w s4f =
      .fail .coroFail ⟨1, ⟨[], 0⟩, [⟨[]⟩], ⟨[], 0⟩, [], Val.nil, Val.nil⟩ := by
  have h1 := (c4_rngp_exhausted env0 proto4w s4w .N 2 ⟨[CoroRes.endOfCoro]⟩
    ⟨[]⟩ [] (by decide) rfl rfl).1 rfl
  have h2 := (c4_rngp_exhausted env0 proto4w s4f .N 2 ⟨[CoroRes.fail]⟩
    ⟨[]⟩ [] (by decide) rfl rfl).2 rfl
  exact ⟨h1.1, h2⟩

/-! ## Claim C1 -/

/-- Claim C1: for every frame suspended by YLD, resuming that invocation
with a value `v` pushes `v` onto the saved operand stack and continues
execution at the instruction following the YLD (the saved program counter is
already one past the YLD), so the next operation observes `v` as the result
of the yield expression; every local variable and every other operand-stack
entry is the same as at the moment of suspension (the saved state differs
from the suspension state only in the popped yield value, and the resumed
state only in the pushed `v`). -/
theorem c1_yld_resume (env : Env) (proto : Proto) (s : VMState) (flg : Flag)
    (ix : Nat) (u : Val) (stk1 : valStack)
    (hpc : 0 ≤ s.pc)
    (hfetch : proto.code.get? s.pc.toNat = some ⟨.YLD, flg, ix⟩)
    (hpop : s.stk.pop = some (u, stk1)) :
    step env proto s = .yld u { s with pc := s.pc + 1, stk := stk1 } ∧
    (∀ (v : Val) (fuel : Nat) (cs0 : Option VMState),
      run env proto { s with pc := s.pc + 1, stk := stk1 } cs0 fuel [v] =
        finishRun cs0 (execLoop env proto fuel
          { s with pc := s.pc + 1, stk := stk1.push v })) ∧
    (∀ v : Val, stk1.wf →
      (stk1.push v).toList = stk1.toList ++ [v] ∧
      (stk1.push v).sp = stk1.sp + 1) := by
  have hpc' : ¬ s.pc < 0 := by omega
  refine ⟨?_, ?_, ?_⟩
  · simp only [step, hpc', if_false, hfetch, hpop]
  · intro v fuel cs0
    have hne : ¬ (s.pc + 1 = 0) := by omega
    simp only [run, prologue, hne, if_false, List.headD]
  · intro v hwf
    exact ⟨stk1.push_toList v hwf, stk1.push_sp v⟩

def protoW1 : Proto := ⟨[], [], [⟨.YLD, .N, 0⟩, ⟨.RET, .N, 0⟩], 0, 0⟩

def sW1 : VMState :=
  ⟨0, ⟨[Val.number 7], 1⟩, [], ⟨[], 0⟩, [("x", Val.number 3)], Val.nil,
    Val.nil⟩

def savedW1 : VMState :=
  ⟨1, ⟨[Val.nil], 0⟩, [], ⟨[], 0⟩, [("x", Val.number 3)], Val.nil, Val.nil⟩

def resumedW1 : VMState :=
  ⟨1, ⟨[Val.number 9], 1⟩, [], ⟨[], 0⟩, [("x", Val.number 3)], Val.nil,
    Val.nil⟩

theorem c1_yld_resume_witness :
    step env0 protoW1 sW1 = .yld (Val.number 7) savedW1 ∧
    run env0 protoW1 savedW1 none 2 [Val.number 9] =
      finishRun none (execLoop env0 protoW1 2 resumedW1) := by
  have h := c1_yld_resume env0 protoW1 sW1 .N 0 (Val.number 7) ⟨[Val.nil], 0⟩
    (by decide) rfl rfl
  exact ⟨h.1, h.2.1 (Val.number 9) 2 none⟩

/-! ## Claim C10 -/

/-- Claim C10: if a suspended invocation (program counter > 0, i.e. not 0)
is resumed with more than one argument, only the first argument is pushed
onto the operand stack as the yield result and all additional arguments are
silently ignored, so the run behaves identically to resuming with the first
argument alone; resuming with zero arguments pushes Nil. -/
theorem c10_resume_first_arg_only (env : Env) (proto : Proto) (s : VMState)
    (cs0 : Option VMState) (fuel : Nat) (a : Val) (rest : List Val)
    (h : s.pc ≠ 0) :
    run env proto s cs0 fuel (a :: rest) = run env proto s cs0 fuel [a] ∧
    run env proto s cs0 fuel [] =
      finishRun cs0 (execLoop env proto fuel
        { s with stk := s.stk.push Val.nil }) := by
  constructor
  · simp only [run, prologue, h, if_false, List.headD]
  · simp only [run, prologue, h, if_false, List.headD]

def proto10 : Proto := ⟨[], [], [⟨.RET, .N, 0⟩, ⟨.RET, .N, 0⟩], 0, 0⟩

def s10 : VMState := ⟨1, ⟨[], 0⟩, [], ⟨[], 0⟩, [], Val.nil, Val.nil⟩

theorem c10_resume_first_arg_only_witness :
    run env0 proto10 s10 none 2 [Val.number 1, Val.number 2] =
      run env0 proto10 s10 none 2 [Val.number 1] ∧
    run env0 proto10 s10 none 2 [] =
      finishRun none (execLoop env0 proto10 2
        { s10 with stk := valStack.push ⟨[], 0⟩ Val.nil }) :=
  c10_resume_first_arg_only env0 proto10 s10 none 2 (Val.number 1)
    [Val.number 2] (by decide)

/-! ## Claim C2 -/

/-- Claim C2 (amended): for every run of an Execution Frame, if it terminates
by RET, all still-live range-coroutine handles held by that frame are
released and the saved suspended state is cleared (RET is not resumable
again); if it terminates by a propagated fatal failure, all still-live
range-coroutine handles are released but any saved suspended state is left
as it was before the run (only OP_RET clears `f.val.coroState`; the deferred
teardown releases only the range handles); if it terminates by YLD, no
range-coroutine handle is released and the live frame is stored on the
function value for a future resume. -/
theorem c2_teardown (env : Env) (proto : Proto) (s : VMState)
    (cs0 : Option VMState) (fuel : Nat) (args : List Val) (s1 : VMState)
    (hp : prologue proto s args = .ok s1) :
    (∀ v s2, execLoop env proto fuel s1 = .ret v s2 →
      run env proto s cs0 fuel args = some ⟨.ok [v], none, []⟩) ∧
    (∀ v s2, execLoop env proto fuel s1 = .yld v s2 →
      run env proto s cs0 fuel args = some ⟨.ok [v], some s2, s2.rng⟩) ∧
    (∀ e s2, execLoop env proto fuel s1 = .fail e s2 →
      run env proto s cs0 fuel args = some ⟨.error e, cs0, []⟩) := by
  refine ⟨?_, ?_, ?_⟩ <;> intro a s2 h <;>
    simp only [run, hp, h, finishRun]

def protoR : Proto := ⟨[], [], [⟨.RET, .N, 0⟩], 0, 0⟩

def protoY : Proto := ⟨[], [], [⟨.YLD, .N, 0⟩], 0, 0⟩

def proto2c : Proto := ⟨[], [], [⟨.RET, .N, 0⟩, ⟨.CALL, .N, 0⟩], 0, 0⟩

def sR : VMState :=
  ⟨0, ⟨[Val.number 3], 1⟩, [⟨[]⟩], ⟨[], 0⟩, [], Val.nil, Val.nil⟩

def sY2 : VMState :=
  ⟨1, ⟨[Val.nil], 0⟩, [⟨[]⟩], ⟨[], 0⟩, [], Val.nil, Val.nil⟩

def sC2 : VMState :=
  ⟨1, ⟨[], 0⟩, [⟨[CoroRes.ok [Val.nil]]⟩], ⟨[], 0⟩, [], Val.nil, Val.nil⟩

theorem c2_teardown_witness :
    run env0 protoR sR none 1 [] = some ⟨.ok [Val.number 3], none, []⟩ ∧
    run env0 protoY sR none 1 [] =
      some ⟨.ok [Val.number 3], some sY2, [⟨[]⟩]⟩ ∧
    run env0 proto2c sC2 (some sC2) 3 [] =
      some ⟨.error (.typeMismatch "nil" "func"), some sC2, []⟩ := by
  have hR := (c2_teardown env0 protoR sR none 1 [] sR rfl).1
    (Val.number 3) sY2 rfl
  have hY := (c2_teardown env0 protoY sR none 1 [] sR rfl).2.1
    (Val.number 3) sY2 rfl
  have hF := (c2_teardown env0 proto2c sC2 (some sC2) 3 []
    ⟨1, ⟨[Val.nil], 1⟩, [⟨[CoroRes.ok [Val.nil]]⟩], ⟨[], 0⟩, [], Val.nil,
      Val.nil⟩ rfl).2.2
    (.typeMismatch "nil" "func")
    ⟨2, ⟨[Val.nil], 0⟩, [⟨[CoroRes.ok [Val.nil]]⟩], ⟨[], 0⟩, [], Val.nil,
      Val.nil⟩ rfl
  exact ⟨hR, hY, hF⟩

/-- Claim C2, as stated, is false on the code: a resumed frame (whose
function value still holds the saved suspension `sC2`) that terminates by a
propagated fatal failure (CALL on the non-callable Nil) ends with its range
handles released but its saved suspended state untouched — `coroState` is
still `some sC2`, not cleared. -/
theorem c2_counterexample :
    run env0 proto2c sC2 (some sC2) 3 [] =
      some ⟨.error (.typeMismatch "nil" "func"), some sC2, []⟩ ∧
    (some sC2 ≠ (none : Option VMState)) := by
  exact ⟨rfl, by simp⟩

/-! ## Claim C5 -/

def proto5 : Proto := ⟨[], [], [⟨.NEW, .N, 2⟩], 0, 0⟩

def s5 : VMState :=
  ⟨0, ⟨[Val.obj [], Val.str "a", Val.number 1, Val.str "b", Val.number 2], 5⟩,
    [], ⟨[], 0⟩, [], Val.nil, Val.nil⟩

def s5a : VMState :=
  ⟨0, ⟨[Val.obj [], Val.number 1, Val.str "a", Val.number 2, Val.str "b"], 5⟩,
    [], ⟨[], 0⟩, [], Val.nil, Val.nil⟩

/-- Claim C5, as stated, is false on the code: OP_NEW's pair loop
(`key, val := f.stk.pop(), f.stk.pop()`) pops the KEY first — the key is on
top of each pair, not the value.  On the claim's stack
[Object, "a", 1, "b", 2] (bottom to top), NEW with ix=2 therefore builds the
object {2:"b", 1:"a"} — its lookup at key "a" is Nil, not 1. -/
theorem c5_counterexample :
    step env0 proto5 s5 =
      .next ⟨1, ⟨[Val.obj [],
        Val.obj [(Val.number 2, Val.str "b"), (Val.number 1, Val.str "a")],
        Val.nil, Val.nil, Val.nil], 2⟩, [], ⟨[], 0⟩, [], Val.nil, Val.nil⟩ ∧
    objGet [(Val.number 2, Val.str "b"), (Val.number 1, Val.str "a")]
      (Val.str "a") = Val.nil ∧
    Val.nil ≠ Val.number 1 := by
  refine ⟨rfl, rfl, ?_⟩
  intro h
  exact Val.noConfusion h

/-- Claim C5 (amended): executing NEW with ix=2 pops the 2*ix values in
pairs, key then value (the key of each pair is on top), so a stack holding
(bottom to top) [Object, 1, "a", 2, "b"] produces and pushes an Object whose
mapping equals {a:1, b:2}; the pairs are inserted in reverse stack order
(insertion order is irrelevant for Objects), and the Object at the bottom is
left untouched — NEW pops no receiver, exactly 2*ix values. -/
theorem c5_new_pops_key_then_value :
    step env0 proto5 s5a =
      .next ⟨1, ⟨[Val.obj [],
        Val.obj [(Val.str "b", Val.number 2), (Val.str "a", Val.number 1)],
        Val.nil, Val.nil, Val.nil], 2⟩, [], ⟨[], 0⟩, [], Val.nil, Val.nil⟩ ∧
    objGet [(Val.str "b", Val.number 2), (Val.str "a", Val.number 1)]
      (Val.str "a") = Val.number 1 ∧
    objGet [(Val.str "b", Val.number 2), (Val.str "a", Val.number 1)]
      (Val.str "b") = Val.number 2 ∧
    objGet [(Val.str "b", Val.number 2), (Val.str "a", Val.number 1)]
      (Val.str "c") = Val.nil :=
  ⟨rfl, rfl, rfl, rfl⟩

/-! ## Claim C6 -/

def proto6 : Proto := ⟨[], [], [⟨.CALL, .N, 2⟩], 0, 0⟩

def s6 : VMState :=
  ⟨0, ⟨[Val.func 0, Val.number 1, Val.number 2], 3⟩, [], ⟨[], 0⟩, [],
    Val.nil, Val.nil⟩

def s6a : VMState :=
  ⟨0, ⟨[Val.number 1, Val.number 2, Val.func 0], 3⟩, [], ⟨[], 0⟩, [],
    Val.nil, Val.nil⟩

/-- Claim C6, as stated, is false on the code: OP_CALL pops the callee from
the TOP of the stack before popping the arguments, so on the claim's stack
[fn, 1, 2] (bottom to top) it pops the number 2 as the callee and raises a
type-mismatch failure ("number" where "func" was expected) instead of
invoking fn — in particular it does not reach the state the claim describes
(fn's results, here the echoed arguments (1, 2), pushed in order). -/
theorem c6_counterexample :
    step env0 proto6 s6 =
      .fail (.typeMismatch "number" "func")
        ⟨1, ⟨[Val.func 0, Val.number 1, Val.nil], 2⟩, [], ⟨[], 0⟩, [],
          Val.nil, Val.nil⟩ ∧
    step env0 proto6 s6 ≠
      .next ⟨1, ⟨[Val.number 1, Val.number 2, Val.nil], 2⟩, [], ⟨[], 0⟩, [],
        Val.nil, Val.nil⟩ := by
  refine ⟨rfl, ?_⟩
  intro h
  exact StepRes.noConfusion h

/-- Claim C6 (amended): executing CALL with ix=2 on an operand stack holding
(bottom to top) [1, 2, fn] — the callee is pushed last and popped first —
invokes fn with no bound `this` and the arguments (1, 2) in left-to-right
order, not (2, 1), and pushes all of fn's results onto the operand stack in
order. -/
theorem c6_call_arg_order (env : Env) (proto : Proto) (s : VMState)
    (flg : Flag) (a b : Val) (fid : Nat) (outs : List Val)
    (hpc : 0 ≤ s.pc)
    (hfetch : proto.code.get? s.pc.toNat = some ⟨.CALL, flg, 2⟩)
    (hstk : s.stk = ⟨[a, b, Val.func fid], 3⟩)
    (hcall : env.callF fid Val.nil [a, b] = some outs) :
    step env proto s = .next
      { s with pc := s.pc + 1,
               stk := valStack.pushAll ⟨[Val.nil, Val.nil, Val.nil], 0⟩ outs } ∧
    (valStack.pushAll ⟨[Val.nil, Val.nil, Val.nil], 0⟩ outs).toList = outs := by
  have hpc' : ¬ s.pc < 0 := by omega
  constructor
  · simp only [step, hpc', if_false, hfetch, hstk]
    simp only [valStack.pop, popArgs, List.getD, valStack.pushAll]
    norm_num
    rw [hcall]
  · have h := (valStack.pushAll_toList outs
      ⟨[Val.nil, Val.nil, Val.nil], 0⟩ (by decide)).1
    rw [h]
    rfl

theorem c6_call_arg_order_witness :
    step env0 proto6 s6a =
      .next ⟨1, ⟨[Val.number 1, Val.number 2, Val.nil], 2⟩, [], ⟨[], 0⟩, [],
        Val.nil, Val.nil⟩ := by
  have h := c6_call_arg_order env0 proto6 s6a .N (Val.number 1) (Val.number 2)
    0 [Val.number 1, Val.number 2] (by decide) rfl rfl rfl
  exact h.1

/-! ## Claim C7 -/

theorem lookup_mapSet_self (m : List (String × Val)) (k : String) (v : Val) :
    List.lookup k (mapSet m k v) = some v := by
  induction m with
  | nil => simp [mapSet, List.lookup]
  | cons p t ih =>
      obtain ⟨k1, v1⟩ := p
      by_cases h : k1 = k
      · simp [mapSet, h, List.lookup]
      · have hb : (k == k1) = false :=
          beq_eq_false_iff_ne.mpr (fun he => h he.symm)
        simp only [mapSet, if_neg h, List.lookup, hb]
        exact ih

theorem lookup_mapSet_ne (m : List (String × Val)) (k1 k : String) (v : Val)
    (h : k1 ≠ k) :
    List.lookup k (mapSet m k1 v) = List.lookup k m := by
  have hb : (k == k1) = false := beq_eq_false_iff_ne.mpr (fun he => h he.symm)
  induction m with
  | nil => simp [mapSet, List.lookup, hb]
  | cons p t ih =>
      obtain ⟨k2, v2⟩ := p
      by_cases h2 : k2 = k1
      · subst h2
        simp [mapSet, List.lookup, hb]
      · simp only [mapSet, if_neg h2, List.lookup]
        cases hk2 : k == k2 with
        | true => rfl
        | false => exact ih

theorem get?_eq_getD {α : Type} (l : List α) (j : Nat) (d : α)
    (h : j < l.length) : l.get? j = some (l.getD j d) := by
  rw [List.get?_eq_getElem?, List.getD_eq_getElem?_getD,
    List.getElem?_eq_getElem h]
  rfl

theorem bindLoop_preserves (kTable args : List Val) :
    ∀ (n j : Nat) (vars : List (String × Val)) (nm : String),
      (∀ u, j ≤ u → u < j + n → valString (kTable.getD u Val.nil) ≠ nm) →
      (∀ u, j ≤ u → u < j + n → u < kTable.length) →
      ∃ vars1, bindLoop kTable args j n vars = some vars1 ∧
        List.lookup nm vars1 = List.lookup nm vars := by
  intro n
  induction n with
  | zero => intro j vars nm _ _; exact ⟨vars, rfl, rfl⟩
  | succ n ih =>
      intro j vars nm hne hb
      have hj : j < kTable.length := hb j (Nat.le_refl j) (by omega)
      obtain ⟨vars1, h1, h2⟩ := ih (j + 1)
        (mapSet vars (valString (kTable.getD j Val.nil)) (args.getD j Val.nil))
        nm (fun u hu1 hu2 => hne u (by omega) (by omega))
        (fun u hu1 hu2 => hb u (by omega) (by omega))
      refine ⟨vars1, ?_, ?_⟩
      · unfold bindLoop
        rw [get?_eq_getD kTable j Val.nil hj]
        exact h1
      · rw [h2, lookup_mapSet_ne _ _ _ _ (hne j (Nat.le_refl j) (by omega))]

theorem bindLoop_lookup (kTable args : List Val) :
    ∀ (n j : Nat) (vars : List (String × Val)) (t : Nat),
      j ≤ t → t < j + n →
      (∀ u, j ≤ u → u < j + n → u ≠ t →
        valString (kTable.getD u Val.nil) ≠ valString (kTable.getD t Val.nil)) →
      (∀ u, j ≤ u → u < j + n → u < kTable.length) →
      ∃ vars1, bindLoop kTable args j n vars = some vars1 ∧
        List.lookup (valString (kTable.getD t Val.nil)) vars1 =
          some (args.getD t Val.nil) := by
  intro n
  induction n with
  | zero => intro j vars t h1 h2 _ _; omega
  | succ n ih =>
      intro j vars t hjt htn hinj hb
      have hj : j < kTable.length := hb j (Nat.le_refl j) (by omega)
      by_cases het : t = j
      · subst het
        obtain ⟨vars1, h1, h2⟩ := bindLoop_preserves kTable args n (t + 1)
          (mapSet vars (valString (kTable.getD t Val.nil)) (args.getD t Val.nil))
          (valString (kTable.getD t Val.nil))
          (fun u hu1 hu2 => hinj u (by omega) (by omega) (by omega))
          (fun u hu1 hu2 => hb u (by omega) (by omega))
        refine ⟨vars1, ?_, ?_⟩
        · unfold bindLoop
          rw [get?_eq_getD kTable t Val.nil hj]
          exact h1
        · rw [h2, lookup_mapSet_self]
      · obtain ⟨vars1, h1, h2⟩ := ih (j + 1)
          (mapSet vars (valString (kTable.getD j Val.nil)) (args.getD j Val.nil))
          t (by omega) (by omega)
          (fun u hu1 hu2 hu3 => hinj u (by omega) (by omega) hu3)
          (fun u hu1 hu2 => hb u (by omega) (by omega))
        refine ⟨vars1, ?_, h2⟩
        unfold bindLoop
        rw [get?_eq_getD kTable j Val.nil hj]
        exact h1

theorem objSet_fresh (k v : Val) :
    ∀ (flds : List (Val × Val)),
      (∀ q ∈ flds, valEqKey q.1 k = false) →
      objSet flds k v = flds ++ [(k, v)] := by
  intro flds
  induction flds with
  | nil => intro _; rfl
  | cons q t ih =>
      intro h
      obtain ⟨k1, v1⟩ := q
      have hk : valEqKey k1 k = false := h (k1, v1) (by simp)
      simp only [objSet, hk, Bool.false_eq_true, if_false, List.cons_append]
      rw [ih (fun q hq => h q (by simp [hq]))]

theorem argsObjFold (vs : List Val) :
    ∀ (k : Nat) (acc : List (Val × Val)),
      (∀ q ∈ acc, ∀ i : Nat, k ≤ i → valEqKey q.1 (Val.number (i : Int)) = false) →
      (List.enumFrom k vs).foldl
          (fun o p => objSet o (Val.number (p.1 : Int)) p.2) acc =
        acc ++ (List.enumFrom k vs).map
          (fun p => (Val.number (p.1 : Int), p.2)) := by
  induction vs with
  | nil => intro k acc _; simp [List.enumFrom]
  | cons v t ih =>
      intro k acc hacc
      simp only [List.enumFrom, List.foldl_cons, List.map_cons]
      rw [objSet_fresh _ _ acc (fun q hq => hacc q hq k (Nat.le_refl k))]
      rw [ih (k + 1) (acc ++ [(Val.number (k : Int), v)]) ?_]
      · simp
      · intro q hq i hi
        rcases List.mem_append.mp hq with hq1 | hq2
        · exact hacc q hq1 i (by omega)
        · simp only [List.mem_singleton] at hq2
          subst hq2
          simp only [valEqKey, beq_iff_eq]
          have : (k : Int) ≠ (i : Int) := by
            intro he
            omega
          simp [this]

theorem createArgsVal_obj (args : List Val) (h : args ≠ []) :
    createArgsVal args =
      Val.obj (args.enum.map fun p => (Val.number (p.1 : Int), p.2)) := by
  unfold createArgsVal
  rw [if_neg (by simpa using h)]
  congr 1
  have := argsObjFold args 0 [] (by intro q hq; simp at hq)
  simpa [List.enum] using this

/-- Claim C7: for every fresh (non-resume) invocation of a prototype-backed
function, each expected parameter with no corresponding positional argument
is bound to Nil, each supplied argument is bound positionally
(`args.getD t Val.nil` is `args[t]` when supplied and Nil otherwise), and the
`args` value is Nil when zero arguments are passed, otherwise an Object whose
numeric keys 0..N-1 hold all N originally-passed arguments.  The parameter
names (`kTable[0..expArgs-1].String()`) are assumed pairwise distinct around
position `t`, since later duplicate names would overwrite the binding. -/
theorem c7_fresh_binding (proto : Proto) (s : VMState) (args : List Val)
    (t : Nat)
    (hpc : s.pc = 0)
    (ht : t < proto.expArgs)
    (hlen : proto.expArgs ≤ proto.kTable.length)
    (hinj : ∀ u, u < proto.expArgs → u ≠ t →
      valString (proto.kTable.getD u Val.nil) ≠
        valString (proto.kTable.getD t Val.nil)) :
    ∃ vars1, bindArgs proto args (createLocals proto s.vars) = some vars1 ∧
      prologue proto s args =
        .ok { s with vars := vars1, argsVal := createArgsVal args } ∧
      List.lookup (valString (proto.kTable.getD t Val.nil)) vars1 =
        some (args.getD t Val.nil) ∧
      (args = [] → createArgsVal args = Val.nil) ∧
      (args ≠ [] → createArgsVal args =
        Val.obj (args.enum.map fun p => (Val.number (p.1 : Int), p.2))) := by
  obtain ⟨vars1, h1, h2⟩ := bindLoop_lookup proto.kTable args proto.expArgs 0
    (createLocals proto s.vars) t (Nat.zero_le t) (by omega)
    (fun u hu1 hu2 hu3 => hinj u (by omega) hu3)
    (fun u hu1 hu2 => by omega)
  refine ⟨vars1, h1, ?_, h2, ?_, createArgsVal_obj args⟩
  · unfold prologue bindArgs at *
    rw [if_pos hpc, h1]
  · intro he
    subst he
    rfl

def proto7 : Proto :=
  ⟨[Val.str "x", Val.str "y"], [], [⟨.RET, .N, 0⟩], 2, 0⟩

def s7 : VMState := ⟨0, ⟨[], 0⟩, [], ⟨[], 0⟩, [], Val.nil, Val.nil⟩

theorem c7_fresh_binding_witness :
    bindArgs proto7 [Val.number 10] (createLocals proto7 []) =
      some [("x", Val.number 10), ("y", Val.nil)] ∧
    List.lookup "x" [("x", Val.number 10), ("y", Val.nil)] =
      some (Val.number 10) ∧
    List.lookup "y" [("x", Val.number 10), ("y", Val.nil)] = some Val.nil ∧
    createArgsVal [Val.number 10] =
      Val.obj [(Val.number 0, Val.number 10)] := by
  obtain ⟨vars1, h1, _, h3, _, h5⟩ := c7_fresh_binding proto7 s7
    [Val.number 10] 0 rfl (by decide) (by decide)
    (by
      intro u hu hne
      have hu' : u < 2 := hu
      have hu1 : u = 1 := by omega
      subst hu1
      decide)
  obtain ⟨vars1', h1', _, h3', _, _⟩ := c7_fresh_binding proto7 s7
    [Val.number 10] 1 rfl (by decide) (by decide)
    (by
      intro u hu hne
      have hu' : u < 2 := hu
      have hu0 : u = 0 := by omega
      subst hu0
      decide)
  have hc : bindArgs proto7 [Val.number 10] (createLocals proto7 []) =
      some [("x", Val.number 10), ("y", Val.nil)] := rfl
  have he1 : vars1 = [("x", Val.number 10), ("y", Val.nil)] := by
    have := h1.symm.trans hc
    injection this
  have he2 : vars1' = [("x", Val.number 10), ("y", Val.nil)] := by
    have := h1'.symm.trans hc
    injection this
  subst he1
  subst he2
  refine ⟨hc, h3, h3', ?_⟩
  rw [h5 (by simp)]
  rfl

/-! ## Claim C9 -/

def asmInput9 : List String :=
  ["[f]", "10", "0", "0", "f1", "test.agora", "1", "3", "[i]", "RET"]

/-- Claim C9 asserts that `Compile` parses the `[f]`/`[k]`/`[i]`/`[v]`
sections and reconstructs a Module of prototypes.  On the code as given it
cannot: the handler-local prototype pointer (`var p *runtime.GoblinFunc`) is
never allocated, so the very first `[f]` body line (here "10", the stack
size) dereferences nil and every input containing an `[f]` section panics
instead of producing prototypes; moreover no `[v]` handler exists in the
dispatch map, so a `[v]` line is not recognized as a section (at the top
level it is silently skipped).  Empty input scans nothing and returns an
empty prototype list. -/
theorem c9_compile_nil_proto :
    compileAsm 100 asmInput9 = .error nilDeref ∧
    compileAsm 100 [] = .ok [] ∧
    compileAsm 100 ["[v]"] = .ok [] :=
  ⟨rfl, rfl, rfl⟩

end Agora
